import Mathlib

/-!
Timed LED event tables (MusicBotOfficial).

A shallow embedding of the two generated headers `Hot_Cross_Buns.h` and
`Mary_Had_a_Little_Lamb_v1.h`.  Each header declares a record type `LedEvent`,
a constant table `SONG` and its element count `SONG_LEN`.  `Hot_Cross_Buns.h`
holds two such declarations: the Hot Cross Buns table (32-bit delays) and,
after the marker `=== Mary Had a Little Lamb_v1.h ===`, a second table for
Mary Had a Little Lamb with 16-bit delays.

Machine integers are natural numbers reduced modulo the width of the field
that stores them.
-/

/-- One record of a `SONG` table: `dt_ms` is the delay before the event,
`pin` the Arduino digital pin, `on_` (the field `on`, a reserved word
here) is 1 for ON and 0 for OFF. -/
structure LedEvent where
  dt_ms : Nat
  pin : Nat
  on_ : Nat
deriving DecidableEq

/-- Initialiser of the record with `uint32_t dt_ms`,
`uint8_t pin`, `uint8_t on`. -/
def ev32 (dt pin on_ : Nat) : LedEvent :=
  ⟨dt % 2 ^ 32, pin % 2 ^ 8, on_ % 2 ^ 8⟩

/-- Initialiser of the record with `uint16_t dt_ms`,
`uint8_t pin`, `uint8_t on`. -/
def ev16 (dt pin on_ : Nat) : LedEvent :=
  ⟨dt % 2 ^ 16, pin % 2 ^ 8, on_ % 2 ^ 8⟩

/-- Size in bytes of the record with a 32-bit delay: the three fields plus
`pad` bytes of padding chosen by the target (0 on AVR). -/
def sizeofLedEvent32 (pad : Nat) : Nat := 4 + 1 + 1 + pad

/-- Size in bytes of the record with a 16-bit delay, with `pad` bytes of
padding. -/
def sizeofLedEvent16 (pad : Nat) : Nat := 2 + 1 + 1 + pad

/-- The expression `sizeof(SONG) / sizeof(SONG[0])` stored in a `uint32_t`,
for a table `song` whose records take `sz` bytes each. -/
def countof (sz : Nat) (song : List LedEvent) : Nat :=
  (sz * song.length / sz) % 2 ^ 32

namespace Hot_Cross_Buns

/-- Pins of the header's note -> pin mapping: RED(D2), GREEN(D3), BLUE(D4). -/
def pinMapping : List Nat := [2, 3, 4]

/-- The table `SONG` of `Hot_Cross_Buns.h`, lines 25-62. -/
def SONG : List LedEvent := [
  ev32 35 4 1,
  ev32 510 4 0,
  ev32 35 3 1,
  ev32 510 3 0,
  ev32 0 2 0,
  ev32 35 2 1,
  ev32 0 2 1,
  ev32 510 2 0,
  ev32 545 4 1,
  ev32 545 4 0,
  ev32 0 3 1,
  ev32 545 3 0,
  ev32 0 2 1,
  ev32 545 2 0,
  ev32 545 2 1,
  ev32 136 2 0,
  ev32 136 2 1,
  ev32 136 2 0,
  ev32 136 2 1,
  ev32 136 2 0,
  ev32 136 2 1,
  ev32 136 2 0,
  ev32 136 3 1,
  ev32 136 3 0,
  ev32 136 3 1,
  ev32 136 3 0,
  ev32 136 3 1,
  ev32 136 3 0,
  ev32 136 3 1,
  ev32 136 3 0,
  ev32 136 4 1,
  ev32 545 4 0,
  ev32 0 3 1,
  ev32 545 3 0,
  ev32 0 2 1,
  ev32 545 2 0
]

/-- The constant `SONG_LEN` of `Hot_Cross_Buns.h`, line 64. -/
def SONG_LEN (pad : Nat) : Nat := countof (sizeofLedEvent32 pad) SONG

end Hot_Cross_Buns

namespace Hot_Cross_Buns.Mary_Had_a_Little_Lamb

/-- Pins of the note -> LED mapping of the second half of `Hot_Cross_Buns.h`:
RED(D2), GREEN(D3), BLUE(D4), WHITE(D5). -/
def pinMapping : List Nat := [2, 3, 4, 5]

/-- The table `SONG` of `Hot_Cross_Buns.h`, lines 88-139 (16-bit delays). -/
def SONG : List LedEvent := [
  ev16 0 4 1,
  ev16 273 4 0,
  ev16 0 3 1,
  ev16 273 3 0,
  ev16 0 2 1,
  ev16 273 2 0,
  ev16 0 3 1,
  ev16 273 3 0,
  ev16 0 4 1,
  ev16 273 4 0,
  ev16 0 4 1,
  ev16 273 4 0,
  ev16 0 4 1,
  ev16 273 4 0,
  ev16 273 3 1,
  ev16 273 3 0,
  ev16 0 3 1,
  ev16 273 3 0,
  ev16 0 3 1,
  ev16 273 3 0,
  ev16 273 4 1,
  ev16 273 4 0,
  ev16 0 5 1,
  ev16 273 5 0,
  ev16 0 5 1,
  ev16 273 5 0,
  ev16 273 4 1,
  ev16 273 4 0,
  ev16 0 3 1,
  ev16 273 3 0,
  ev16 0 2 1,
  ev16 273 2 0,
  ev16 0 3 1,
  ev16 273 3 0,
  ev16 0 4 1,
  ev16 273 4 0,
  ev16 0 4 1,
  ev16 273 4 0,
  ev16 0 4 1,
  ev16 273 4 0,
  ev16 273 3 1,
  ev16 273 3 0,
  ev16 0 3 1,
  ev16 273 3 0,
  ev16 0 4 1,
  ev16 273 4 0,
  ev16 0 3 1,
  ev16 273 3 0,
  ev16 0 2 1,
  ev16 273 2 0
]

/-- The constant `SONG_LEN` of `Hot_Cross_Buns.h`, line 141. -/
def SONG_LEN (pad : Nat) : Nat := countof (sizeofLedEvent16 pad) SONG

end Hot_Cross_Buns.Mary_Had_a_Little_Lamb

namespace Mary_Had_a_Little_Lamb_v1

/-- Pins of the header's note -> pin mapping: RED(D2), GREEN(D3), BLUE(D4),
WHITE(D5). -/
def pinMapping : List Nat := [2, 3, 4, 5]

/-- The table `SONG` of `Mary_Had_a_Little_Lamb_v1.h`, lines 26-77. -/
def SONG : List LedEvent := [
  ev32 35 4 1,
  ev32 238 4 0,
  ev32 35 3 1,
  ev32 238 3 0,
  ev32 35 2 1,
  ev32 238 2 0,
  ev32 0 3 1,
  ev32 273 3 0,
  ev32 0 4 1,
  ev32 273 4 0,
  ev32 35 4 1,
  ev32 238 4 0,
  ev32 35 4 1,
  ev32 238 4 0,
  ev32 273 3 1,
  ev32 273 3 0,
  ev32 35 3 1,
  ev32 238 3 0,
  ev32 35 3 1,
  ev32 238 3 0,
  ev32 273 4 1,
  ev32 273 4 0,
  ev32 35 5 1,
  ev32 238 5 0,
  ev32 35 5 1,
  ev32 238 5 0,
  ev32 273 4 1,
  ev32 273 4 0,
  ev32 0 3 1,
  ev32 273 3 0,
  ev32 0 2 1,
  ev32 273 2 0,
  ev32 0 3 1,
  ev32 273 3 0,
  ev32 0 4 1,
  ev32 273 4 0,
  ev32 35 4 1,
  ev32 238 4 0,
  ev32 35 4 1,
  ev32 238 4 0,
  ev32 273 3 1,
  ev32 273 3 0,
  ev32 35 3 1,
  ev32 238 3 0,
  ev32 0 4 1,
  ev32 273 4 0,
  ev32 0 3 1,
  ev32 273 3 0,
  ev32 0 2 1,
  ev32 273 2 0
]

/-- The constant `SONG_LEN` of `Mary_Had_a_Little_Lamb_v1.h`, line 79. -/
def SONG_LEN (pad : Nat) : Nat := countof (sizeofLedEvent32 pad) SONG

end Mary_Had_a_Little_Lamb_v1

/-! ## Replaying a table -/

/-- The state of the output lines: for each pin, whether it is on. -/
abbrev Channels := Nat → Bool

/-- Every channel off. -/
def allOff : Channels := fun _ => false

/-- Apply one record: line `e.pin` is set on when `e.on_` is non-zero and
off otherwise; the other lines keep their state. -/
def applyEvent (st : Channels) (e : LedEvent) : Channels :=
  fun p => if p = e.pin then decide (e.on_ ≠ 0) else st p

/-- Replay the records of a table in order, starting from `st`. -/
def replay (st : Channels) (song : List LedEvent) : Channels :=
  song.foldl applyEvent st

/-- Event `i` of the table sets a channel on while the replay from the
all-off state has that channel on already. -/
def isForcedRetrigger (song : List LedEvent) (i : Nat) : Bool :=
  match song[i]? with
  | some e => decide (e.on_ ≠ 0) && replay allOff (song.take i) e.pin
  | none => false

/-- Event `i` of the table sets a channel off while the replay from the
all-off state has that channel off already. -/
def isUnmatchedOff (song : List LedEvent) (i : Nat) : Bool :=
  match song[i]? with
  | some e => decide (e.on_ = 0) && !replay allOff (song.take i) e.pin
  | none => false

/-- The event before index `i` that is the latest one for channel `c`. -/
def previousEventFor (song : List LedEvent) (c i : Nat) : Option LedEvent :=
  (song.take i).reverse.find? (fun e => decide (e.pin = c))

/-- Event `i` is an on event whose previous event for the same channel was
an on event too. -/
def followsOn (song : List LedEvent) (i : Nat) : Bool :=
  match song[i]? with
  | some e =>
    decide (e.on_ ≠ 0) &&
      (match previousEventFor song e.pin i with
       | some p => decide (p.on_ ≠ 0)
       | none => false)
  | none => false

/-- The indices of a table that satisfy `p`, in increasing order. -/
def indicesWhere (song : List LedEvent) (p : Nat → Bool) : List Nat :=
  (List.range song.length).filter p

/-- The events of a table strictly alternate, the first one being an on
event when `expectOn` is true and an off event otherwise. -/
def alternatesFrom : Bool → List LedEvent → Bool
  | _, [] => true
  | expectOn, e :: rest =>
    (decide (e.on_ ≠ 0) == expectOn) && alternatesFrom (!expectOn) rest

/-- The events of a table for channel `c`, in table order. -/
def eventsFor (song : List LedEvent) (c : Nat) : List LedEvent :=
  song.filter (fun e => decide (e.pin = c))

/-- The last event of the table for channel `c`. -/
def lastEventFor (song : List LedEvent) (c : Nat) : Option LedEvent :=
  song.reverse.find? (fun e => decide (e.pin = c))

/-! ## Times -/

/-- The sum of the delays of a list of records. -/
def totalDelay (song : List LedEvent) : Nat :=
  (song.map (fun e => e.dt_ms)).sum

/-- The time of event `i`, counted from the start of the table: the sum of
`dt_ms` up to and including event `i`. -/
def timeOf (song : List LedEvent) (i : Nat) : Nat :=
  totalDelay (song.take (i + 1))

/-- The time that passes from event `i` to the first on event for channel
`c` after it (the sum of `dt_ms` over the events after `i` up to and
including that on event), if there is one. -/
def gapToNextOn (c : Nat) : List LedEvent → Nat → Option Nat
  | [], _ => none
  | e :: rest, acc =>
    if e.pin = c ∧ e.on_ ≠ 0 then some (acc + e.dt_ms)
    else gapToNextOn c rest (acc + e.dt_ms)

/-- The off gaps of a table: for every off event that is followed by an on
event for the same channel, the time from the off event to the next such on
event. -/
def offGaps : List LedEvent → List Nat
  | [] => []
  | e :: rest =>
    if e.on_ = 0 then
      match gapToNextOn e.pin rest 0 with
      | some g => g :: offGaps rest
      | none => offGaps rest
    else offGaps rest

/-- The `(pin, on)` pair of a record. -/
def pinState (e : LedEvent) : Nat × Nat := (e.pin, e.on_)

/-! ## The playback engine

The repository holds the tables only; the engine that plays them is the one
described in sections 3, 4.1 and 7 of the specification.  Times are natural
numbers: the specification gives the clock no width. -/

/-- One `set_channel_state(channel, boolean)` call. -/
abbrev Call := Nat × Bool

/-- The call that applies a record: its channel and whether its state is
non-zero. -/
def callOf (e : LedEvent) : Call := (e.pin, decide (e.on_ ≠ 0))

/-- Modelled from the spec: the Sequencer of section 4.1 with its
PlaybackCursor (section 3), which the repository does not contain.  `cursor`
is the index of the next event to apply, `due_time` the time at which that
event becomes due, `terminal` the terminal mark, `last_now` the last
observed time (section 7, clock non-monotonicity). -/
structure Sequencer where
  sequence : List LedEvent
  cursor : Nat
  due_time : Nat
  terminal : Bool
  last_now : Nat
deriving DecidableEq

/-- Modelled from the spec: `initialize(sequence)` of section 4.1, missing
from the repository.  It binds the sequence, sets the cursor to index 0,
records the current time `now` as the baseline and sets the due time of
event 0 to `baseline + sequence[0].delay_before`; a sequence of length zero
is immediately finished; a channel outside the declared output set is a
construction failure. -/
def initSequencer (declared : List Nat) (sequence : List LedEvent) (now : Nat) :
    Option Sequencer :=
  if sequence.all (fun e => decide (e.pin ∈ declared)) then
    match sequence with
    | [] => some ⟨sequence, 0, now, true, now⟩
    | e :: _ => some ⟨sequence, 0, now + e.dt_ms, false, now⟩
  else none

/-- Modelled from the spec: the advance step of `tick(now)` of section 4.1,
missing from the repository.  `rest` holds the events after the one just
applied: the cursor moves on, and if a next event exists its due time is the
previous due time plus its delay, otherwise the cursor is marked terminal. -/
def advance (s : Sequencer) (rest : List LedEvent) : Sequencer :=
  match rest with
  | [] => { s with cursor := s.cursor + 1, terminal := true }
  | next :: _ =>
    { s with cursor := s.cursor + 1, due_time := s.due_time + next.dt_ms }

/-- Modelled from the spec: the loop of `tick(now)` of section 4.1, missing
from the repository.  `pending` holds the events from the cursor onwards.
While the cursor is valid and `now >= due_time` the event at the cursor is
applied and the cursor advanced; if a next event exists its due time is the
previous due time plus its delay, otherwise the cursor is marked terminal.
The result is the new state and the calls made, in order. -/
def tickLoop (now : Nat) : List LedEvent → Sequencer → Sequencer × List Call
  | [], s => (s, [])
  | e :: rest, s =>
    if s.terminal = false ∧ s.due_time ≤ now then
      let r := tickLoop now rest (advance s rest)
      (r.1, callOf e :: r.2)
    else (s, [])

/-- Modelled from the spec: `tick(now)` of section 4.1 with the defence of
section 7, missing from the repository: a `now` less than the last observed
time means that no new events are due. -/
def tick (s : Sequencer) (now : Nat) : Sequencer × List Call :=
  if now < s.last_now then (s, [])
  else tickLoop now (s.sequence.drop s.cursor) { s with last_now := now }

/-- Modelled from the spec: `is_finished()` of section 4.1, missing from the
repository. -/
def is_finished (s : Sequencer) : Bool := s.terminal

/-- Repeated `tick` calls, one for each value of `nows` in order; the result
is the final state and all calls made, in order. -/
def runTicks : Sequencer → List Nat → Sequencer × List Call
  | s, [] => (s, [])
  | s, now :: rest =>
    let r1 := tick s now
    let r2 := runTicks r1.1 rest
    (r2.1, r1.2 ++ r2.2)

/-- The due times of the events of `sequence` when the previous event was
due at `t` (the baseline for the first event). -/
def dueTimes : Nat → List LedEvent → List Nat
  | _, [] => []
  | t, e :: rest => (t + e.dt_ms) :: dueTimes (t + e.dt_ms) rest

/-- The due time of the last event of `sequence` for baseline `t`; the
baseline itself when there is no event. -/
def finalDue (t : Nat) (sequence : List LedEvent) : Nat :=
  t + totalDelay sequence

/-- The due times of the events of `sequence` accumulated in an unsigned
integer of `w` bits: every addition of a delay is reduced modulo `2 ^ w`. -/
def dueTimesMod (w : Nat) : Nat → List LedEvent → List Nat
  | _, [] => []
  | t, e :: rest =>
    ((t + e.dt_ms) % 2 ^ w) :: dueTimesMod w ((t + e.dt_ms) % 2 ^ w) rest

/-- The state `s` is a state of a playback of `sequence` started at baseline
`t0`: the cursor is within the table, the terminal mark is set exactly when
no event is pending, and the due time is that of the pending event. -/
def Sequencer.Playing (t0 : Nat) (sequence : List LedEvent) (s : Sequencer) : Prop :=
  s.sequence = sequence ∧ s.cursor ≤ sequence.length ∧
  (s.terminal = true ↔ sequence.drop s.cursor = []) ∧
  (∀ e rest, sequence.drop s.cursor = e :: rest →
    s.due_time = t0 + totalDelay (sequence.take s.cursor) + e.dt_ms)

/-! ## The tables -/

theorem hot_cross_buns_pins :
    ∀ e ∈ Hot_Cross_Buns.SONG, e.pin ∈ Hot_Cross_Buns.pinMapping := by
  decide

theorem mary_v1_pins :
    ∀ e ∈ Mary_Had_a_Little_Lamb_v1.SONG,
      e.pin ∈ Mary_Had_a_Little_Lamb_v1.pinMapping := by
  decide

theorem mary_16_pins :
    ∀ e ∈ Hot_Cross_Buns.Mary_Had_a_Little_Lamb.SONG,
      e.pin ∈ Hot_Cross_Buns.Mary_Had_a_Little_Lamb.pinMapping := by
  decide

/-- A replay does not touch a channel that no event names. -/
theorem replay_untouched (p : Nat) :
    ∀ (song : List LedEvent) (st : Channels),
      (∀ e ∈ song, e.pin ≠ p) → replay st song p = st p := by
  intro song
  induction song with
  | nil => intro st _; rfl
  | cons e rest ih =>
    intro st h
    have hp : e.pin ≠ p := h e (List.mem_cons_self _ _)
    have hrest : ∀ x ∈ rest, x.pin ≠ p := fun x hx => h x (List.mem_cons_of_mem _ hx)
    show replay (applyEvent st e) rest p = st p
    rw [ih (applyEvent st e) hrest]
    simp [applyEvent, Ne.symm hp]

/-- An index picked by `isUnmatchedOff` is an index of the table. -/
theorem isUnmatchedOff_lt (song : List LedEvent) (i : Nat)
    (h : isUnmatchedOff song i = true) : i < song.length := by
  by_contra hlt
  have hnone : song[i]? = none := List.getElem?_eq_none (Nat.le_of_not_lt hlt)
  simp [isUnmatchedOff, hnone] at h

theorem countof_eq_length (sz : Nat) (song : List LedEvent) (hsz : 0 < sz)
    (hlen : song.length < 2 ^ 32) : countof sz song = song.length := by
  unfold countof
  rw [Nat.mul_div_cancel_left _ hsz, Nat.mod_eq_of_lt hlen]

/-- C1: no event references an undeclared channel: in each of the three
`SONG` tables the pin of every record is a pin of the note -> pin mapping of
the table's header, that is 2, 3 or 4 for Hot Cross Buns and 2, 3, 4 or 5
for both Mary Had a Little Lamb tables. -/
theorem song_pins_declared :
    (Hot_Cross_Buns.pinMapping = [2, 3, 4] ∧
      ∀ e ∈ Hot_Cross_Buns.SONG, e.pin ∈ Hot_Cross_Buns.pinMapping) ∧
    (Mary_Had_a_Little_Lamb_v1.pinMapping = [2, 3, 4, 5] ∧
      ∀ e ∈ Mary_Had_a_Little_Lamb_v1.SONG,
        e.pin ∈ Mary_Had_a_Little_Lamb_v1.pinMapping) ∧
    (Hot_Cross_Buns.Mary_Had_a_Little_Lamb.pinMapping = [2, 3, 4, 5] ∧
      ∀ e ∈ Hot_Cross_Buns.Mary_Had_a_Little_Lamb.SONG,
        e.pin ∈ Hot_Cross_Buns.Mary_Had_a_Little_Lamb.pinMapping) := by
  decide

theorem song_pins_declared_witness :
    (ev32 35 4 1 ∈ Hot_Cross_Buns.SONG ∧
      (ev32 35 4 1).pin ∈ Hot_Cross_Buns.pinMapping) ∧
    (ev32 35 5 1 ∈ Mary_Had_a_Little_Lamb_v1.SONG ∧
      (ev32 35 5 1).pin ∈ Mary_Had_a_Little_Lamb_v1.pinMapping) ∧
    (ev16 273 5 0 ∈ Hot_Cross_Buns.Mary_Had_a_Little_Lamb.SONG ∧
      (ev16 273 5 0).pin ∈ Hot_Cross_Buns.Mary_Had_a_Little_Lamb.pinMapping) :=
  ⟨⟨by decide, song_pins_declared.1.2 (ev32 35 4 1) (by decide)⟩,
   ⟨by decide, song_pins_declared.2.1.2 (ev32 35 5 1) (by decide)⟩,
   ⟨by decide, song_pins_declared.2.2.2 (ev16 273 5 0) (by decide)⟩⟩

/-- C2: the Hot Cross Buns table contains exactly one forced retrigger:
replaying it in order from the all-off state, exactly one event (the one at
index 6) sets a channel on that is on already; it is also the only on event
whose previous event for the same channel was an on event. -/
theorem hot_cross_buns_one_forced_retrigger :
    (indicesWhere Hot_Cross_Buns.SONG
      (isForcedRetrigger Hot_Cross_Buns.SONG)).length = 1 ∧
    indicesWhere Hot_Cross_Buns.SONG (isForcedRetrigger Hot_Cross_Buns.SONG) = [6] ∧
    indicesWhere Hot_Cross_Buns.SONG (followsOn Hot_Cross_Buns.SONG) = [6] := by
  decide

/-- C3, as stated, fails: the event at index 4 of the Hot Cross Buns table
is an off event for pin 2, and the replay from the all-off state has pin 2
off when it is applied. -/
theorem hot_cross_buns_off_hits_off :
    ¬ (∀ (i : Nat) (e : LedEvent), Hot_Cross_Buns.SONG[i]? = some e → e.on_ = 0 →
        replay allOff (Hot_Cross_Buns.SONG.take i) e.pin = true) := by
  intro h
  exact absurd (h 4 (ev32 0 2 0) (by decide) (by decide)) (by decide)

/-- C3, amended: replaying the Hot Cross Buns table in order from the
all-off state, the off events applied to a channel that is off are exactly
the one at index 4, the record (0, 2, 0); every other off event is applied
to a channel that is on. -/
theorem hot_cross_buns_unmatched_off_only_at_4 :
    (∀ i, isUnmatchedOff Hot_Cross_Buns.SONG i = true ↔ i = 4) ∧
    Hot_Cross_Buns.SONG[4]? = some (ev32 0 2 0) ∧
    indicesWhere Hot_Cross_Buns.SONG (isUnmatchedOff Hot_Cross_Buns.SONG) = [4] := by
  have hidx : indicesWhere Hot_Cross_Buns.SONG (isUnmatchedOff Hot_Cross_Buns.SONG)
      = [4] := by decide
  refine ⟨?_, by decide, hidx⟩
  intro i
  constructor
  · intro h
    have hlt := isUnmatchedOff_lt _ _ h
    have hmem : i ∈ indicesWhere Hot_Cross_Buns.SONG
        (isUnmatchedOff Hot_Cross_Buns.SONG) := by
      unfold indicesWhere
      exact List.mem_filter.mpr ⟨List.mem_range.mpr hlt, h⟩
    rw [hidx] at hmem
    simpa using hmem
  · intro h
    subst h
    decide

/-- C4: the minimum off gap between repeated notes is 35 ms in both 32-bit
tables: every off event that is followed by an on event for the same channel
is at least 35 ms before the next such on event, and a gap of exactly 35 ms
occurs. -/
theorem min_off_gap_is_35 :
    ((∀ g ∈ offGaps Hot_Cross_Buns.SONG, 35 ≤ g) ∧
      35 ∈ offGaps Hot_Cross_Buns.SONG) ∧
    ((∀ g ∈ offGaps Mary_Had_a_Little_Lamb_v1.SONG, 35 ≤ g) ∧
      35 ∈ offGaps Mary_Had_a_Little_Lamb_v1.SONG) := by
  decide

theorem min_off_gap_is_35_witness :
    (136 ∈ offGaps Hot_Cross_Buns.SONG ∧ 35 ≤ 136) ∧
    (273 ∈ offGaps Mary_Had_a_Little_Lamb_v1.SONG ∧ 35 ≤ 273) :=
  ⟨⟨by decide, min_off_gap_is_35.1.1 136 (by decide)⟩,
   ⟨by decide, min_off_gap_is_35.2.1 273 (by decide)⟩⟩

/-- C5: the Mary Had a Little Lamb v1 table has no forced retriggers and no
unmatched offs: restricted to any single channel its events strictly
alternate on, off, on, off, ..., starting with an on event; no on event hits
a channel that is on and no off event hits a channel that is off. -/
theorem mary_v1_strictly_alternates :
    (∀ c, alternatesFrom true (eventsFor Mary_Had_a_Little_Lamb_v1.SONG c) = true) ∧
    indicesWhere Mary_Had_a_Little_Lamb_v1.SONG
      (isForcedRetrigger Mary_Had_a_Little_Lamb_v1.SONG) = [] ∧
    indicesWhere Mary_Had_a_Little_Lamb_v1.SONG
      (isUnmatchedOff Mary_Had_a_Little_Lamb_v1.SONG) = [] := by
  refine ⟨?_, by decide, by decide⟩
  intro c
  by_cases hc : c ∈ Mary_Had_a_Little_Lamb_v1.pinMapping
  · have hall : ∀ d ∈ Mary_Had_a_Little_Lamb_v1.pinMapping,
        alternatesFrom true (eventsFor Mary_Had_a_Little_Lamb_v1.SONG d) = true := by
      decide
    exact hall c hc
  · have hnil : eventsFor Mary_Had_a_Little_Lamb_v1.SONG c = [] := by
      unfold eventsFor
      rw [List.filter_eq_nil_iff]
      intro e he hpin
      have hp := mary_v1_pins e he
      have : e.pin = c := by simpa using hpin
      rw [this] at hp
      exact hc hp
    rw [hnil]
    rfl

/-- C6: the element count that accompanies each table equals the number of
records of the table, whatever the padding of the record: `SONG_LEN` is the
length of `SONG`, 36 for Hot Cross Buns and 50 for each of the two Mary Had
a Little Lamb tables. -/
theorem song_len_is_length (pad : Nat) :
    (Hot_Cross_Buns.SONG_LEN pad = Hot_Cross_Buns.SONG.length ∧
      Hot_Cross_Buns.SONG.length = 36) ∧
    (Mary_Had_a_Little_Lamb_v1.SONG_LEN pad = Mary_Had_a_Little_Lamb_v1.SONG.length ∧
      Mary_Had_a_Little_Lamb_v1.SONG.length = 50) ∧
    (Hot_Cross_Buns.Mary_Had_a_Little_Lamb.SONG_LEN pad
        = Hot_Cross_Buns.Mary_Had_a_Little_Lamb.SONG.length ∧
      Hot_Cross_Buns.Mary_Had_a_Little_Lamb.SONG.length = 50) := by
  refine ⟨⟨?_, by decide⟩, ⟨?_, by decide⟩, ⟨?_, by decide⟩⟩
  · exact countof_eq_length _ _ (by unfold sizeofLedEvent32; omega) (by decide)
  · exact countof_eq_length _ _ (by unfold sizeofLedEvent32; omega) (by decide)
  · exact countof_eq_length _ _ (by unfold sizeofLedEvent16; omega) (by decide)

/-- C7: the state field of every record of every `SONG` table is 0 or 1. -/
theorem song_state_is_0_or_1 :
    (∀ e ∈ Hot_Cross_Buns.SONG, e.on_ = 0 ∨ e.on_ = 1) ∧
    (∀ e ∈ Mary_Had_a_Little_Lamb_v1.SONG, e.on_ = 0 ∨ e.on_ = 1) ∧
    (∀ e ∈ Hot_Cross_Buns.Mary_Had_a_Little_Lamb.SONG, e.on_ = 0 ∨ e.on_ = 1) := by
  decide

theorem song_state_is_0_or_1_witness :
    (ev32 0 2 0 ∈ Hot_Cross_Buns.SONG ∧
      ((ev32 0 2 0).on_ = 0 ∨ (ev32 0 2 0).on_ = 1)) ∧
    (ev32 35 5 1 ∈ Mary_Had_a_Little_Lamb_v1.SONG ∧
      ((ev32 35 5 1).on_ = 0 ∨ (ev32 35 5 1).on_ = 1)) ∧
    (ev16 273 5 0 ∈ Hot_Cross_Buns.Mary_Had_a_Little_Lamb.SONG ∧
      ((ev16 273 5 0).on_ = 0 ∨ (ev16 273 5 0).on_ = 1)) :=
  ⟨⟨by decide, song_state_is_0_or_1.1 (ev32 0 2 0) (by decide)⟩,
   ⟨by decide, song_state_is_0_or_1.2.1 (ev32 35 5 1) (by decide)⟩,
   ⟨by decide, song_state_is_0_or_1.2.2 (ev16 273 5 0) (by decide)⟩⟩

/-! ## Lemmas on the playback engine -/

theorem totalDelay_append (xs ys : List LedEvent) :
    totalDelay (xs ++ ys) = totalDelay xs + totalDelay ys := by
  simp [totalDelay]

theorem totalDelay_cons (e : LedEvent) (xs : List LedEvent) :
    totalDelay (e :: xs) = e.dt_ms + totalDelay xs := by
  simp [totalDelay]

theorem tickLoop_due (now : Nat) (e : LedEvent) (rest : List LedEvent)
    (s : Sequencer) (h1 : s.terminal = false) (h2 : s.due_time ≤ now) :
    tickLoop now (e :: rest) s
      = ((tickLoop now rest (advance s rest)).1,
          callOf e :: (tickLoop now rest (advance s rest)).2) := by
  show (if s.terminal = false ∧ s.due_time ≤ now then _ else _) = _
  rw [if_pos ⟨h1, h2⟩]

theorem tickLoop_not_due (now : Nat) (e : LedEvent) (rest : List LedEvent)
    (s : Sequencer) (h : ¬ (s.terminal = false ∧ s.due_time ≤ now)) :
    tickLoop now (e :: rest) s = (s, []) := by
  show (if s.terminal = false ∧ s.due_time ≤ now then _ else _) = _
  rw [if_neg h]

/-- One run of the loop of `tick`: it applies a prefix `applied` of the
pending events, leaves the rest pending with the due time of its first
event, which is not yet due, and keeps the table and the last observed
time. -/
theorem tickLoop_spec (t0 now : Nat) :
    ∀ (pending done : List LedEvent) (s : Sequencer),
      s.cursor = done.length →
      (s.terminal = true ↔ pending = []) →
      (∀ e rest, pending = e :: rest →
        s.due_time = t0 + totalDelay done + e.dt_ms) →
      ∃ applied rest,
        pending = applied ++ rest ∧
        (tickLoop now pending s).2 = applied.map callOf ∧
        (tickLoop now pending s).1.sequence = s.sequence ∧
        (tickLoop now pending s).1.last_now = s.last_now ∧
        (tickLoop now pending s).1.cursor = (done ++ applied).length ∧
        ((tickLoop now pending s).1.terminal = true ↔ rest = []) ∧
        (∀ e rest1, rest = e :: rest1 →
          (tickLoop now pending s).1.due_time
            = t0 + totalDelay (done ++ applied) + e.dt_ms ∧
          now < (tickLoop now pending s).1.due_time) := by
  intro pending
  induction pending with
  | nil =>
    intro done s hc ht hd
    refine ⟨[], [], rfl, rfl, rfl, rfl, by simpa using hc, by simpa using ht, ?_⟩
    intro e rest1 h
    cases h
  | cons e rest ih =>
    intro done s hc ht hd
    have hterm : s.terminal = false := by
      cases h : s.terminal with
      | false => rfl
      | true => exact absurd (ht.mp h) (by simp)
    have hdue := hd e rest rfl
    by_cases hnow : s.due_time ≤ now
    · -- the event at the cursor is due
      rw [tickLoop_due now e rest s hterm hnow]
      have key := ih (done ++ [e]) (advance s rest)
        (by cases rest <;> simp [advance, hc])
        (by cases rest <;> simp [advance, hterm])
        (by
          intro e1 r1 h
          subst h
          simp only [advance, totalDelay_append, totalDelay_cons, totalDelay, hdue]
          simp
          omega)
      obtain ⟨applied, rest3, h1, h2, h3, h4, h5, h6, h7⟩ := key
      refine ⟨e :: applied, rest3, by simp [h1], by simp [h2], ?_, ?_, ?_, h6, ?_⟩
      · rw [h3]; cases rest <;> rfl
      · rw [h4]; cases rest <;> rfl
      · rw [h5]; simp
      · intro e1 r1 h
        have := h7 e1 r1 h
        simpa using this
    · -- the event at the cursor is not due yet
      rw [tickLoop_not_due now e rest s (by simp [hnow])]
      refine ⟨[], e :: rest, rfl, rfl, rfl, rfl, by simpa using hc, by simpa using ht, ?_⟩
      intro e1 r1 h
      cases h
      have hlt : now < s.due_time := Nat.lt_of_not_le hnow
      exact ⟨by simpa using hdue, hlt⟩

/-- The example of section 8 of the specification: the sequence
`[(35,4,1), (510,4,0)]` initialised at time 1000 has its first event due at
1035; `tick(1000)` has no effect, `tick(1040)` applies `(4, on)` and stops,
a second `tick(1040)` has no effect, and `tick(2000)` applies `(4, off)`
and finishes the playback. -/
theorem section8_example :
    initSequencer [4] [⟨35, 4, 1⟩, ⟨510, 4, 0⟩] 1000
      = some ⟨[⟨35, 4, 1⟩, ⟨510, 4, 0⟩], 0, 1035, false, 1000⟩ ∧
    (tick ⟨[⟨35, 4, 1⟩, ⟨510, 4, 0⟩], 0, 1035, false, 1000⟩ 1000)
      = (⟨[⟨35, 4, 1⟩, ⟨510, 4, 0⟩], 0, 1035, false, 1000⟩, []) ∧
    (tick ⟨[⟨35, 4, 1⟩, ⟨510, 4, 0⟩], 0, 1035, false, 1000⟩ 1040)
      = (⟨[⟨35, 4, 1⟩, ⟨510, 4, 0⟩], 1, 1545, false, 1040⟩, [(4, true)]) ∧
    (tick ⟨[⟨35, 4, 1⟩, ⟨510, 4, 0⟩], 1, 1545, false, 1040⟩ 1040).2 = [] ∧
    (tick ⟨[⟨35, 4, 1⟩, ⟨510, 4, 0⟩], 1, 1545, false, 1040⟩ 2000)
      = (⟨[⟨35, 4, 1⟩, ⟨510, 4, 0⟩], 2, 1545, true, 2000⟩, [(4, false)]) ∧
    initSequencer [4] [] 1000 = some ⟨[], 0, 1000, true, 1000⟩ ∧
    initSequencer [4] [⟨35, 5, 1⟩] 1000 = none := by
  decide

theorem split_at_length (l d r : List LedEvent) (h : l = d ++ r) :
    l.take d.length = d ∧ l.drop d.length = r ∧ d.length ≤ l.length ∧
    totalDelay l = totalDelay d + totalDelay r := by
  subst h
  refine ⟨List.take_left _ _, List.drop_left _ _, by simp, totalDelay_append _ _⟩

/-- One `tick` keeps the playback invariant, applies the events between the
old and the new cursor and nothing else, and reaches the terminal state when
`now` is accepted and at or past the final due time. -/
theorem tick_spec (t0 now : Nat) (sequence : List LedEvent) (s : Sequencer)
    (h : s.Playing t0 sequence) :
    (tick s now).1.Playing t0 sequence ∧
    (sequence.take (tick s now).1.cursor).map callOf
      = (sequence.take s.cursor).map callOf ++ (tick s now).2 ∧
    ((tick s now).1.last_now = s.last_now ∨ (tick s now).1.last_now = now) ∧
    (s.last_now ≤ now → finalDue t0 sequence ≤ now →
      (tick s now).1.terminal = true ∧ (tick s now).1.cursor = sequence.length) := by
  obtain ⟨hseq, hcur, hterm, hdue⟩ := h
  subst hseq
  by_cases hlt : now < s.last_now
  · have ht : tick s now = (s, []) := by simp [tick, hlt]
    rw [ht]
    refine ⟨⟨rfl, hcur, hterm, hdue⟩, by simp, Or.inl rfl, ?_⟩
    intro h1
    omega
  · have ht : tick s now
        = tickLoop now (s.sequence.drop s.cursor) { s with last_now := now } := by
      simp [tick, hlt]
    rw [ht]
    have key := tickLoop_spec t0 now (s.sequence.drop s.cursor) (s.sequence.take s.cursor)
      { s with last_now := now }
      (by simp [Nat.min_eq_left hcur]) hterm hdue
    obtain ⟨applied, rest, h1, h2, h3, h4, h5, h6, h7⟩ := key
    have hsplit : s.sequence = (s.sequence.take s.cursor ++ applied) ++ rest := by
      rw [List.append_assoc, ← h1, List.take_append_drop]
    obtain ⟨htake, hdrop, hlen, htot⟩ := split_at_length _ _ _ hsplit
    refine ⟨⟨h3, by rw [h5]; exact hlen, by rw [h5, hdrop]; exact h6, ?_⟩, ?_,
      Or.inr h4, ?_⟩
    · intro e r1 he
      rw [h5, hdrop] at he
      rw [h5, htake]
      exact (h7 e r1 he).1
    · rw [h5, htake, h2]
      simp
    · intro _ hfin
      have hrest : rest = [] := by
        cases rest with
        | nil => rfl
        | cons e r1 =>
          exfalso
          obtain ⟨hd1, hd2⟩ := h7 e r1 rfl
          rw [totalDelay_cons] at htot
          unfold finalDue at hfin
          omega
      refine ⟨h6.mpr hrest, ?_⟩
      rw [h5]
      have := congrArg List.length hsplit
      rw [hrest] at this
      simpa using this.symm

/-- Repeated ticks over non-decreasing times, the last of which is at or
past the final due time, finish the playback having applied exactly the
events from the cursor onwards, in table order. -/
theorem runTicks_spec (t0 : Nat) (sequence : List LedEvent) :
    ∀ (nows : List Nat) (s : Sequencer) (last : Nat),
      s.Playing t0 sequence →
      nows.Pairwise (fun a b => a ≤ b) →
      nows.getLast? = some last →
      s.last_now ≤ last →
      finalDue t0 sequence ≤ last →
      (runTicks s nows).1.terminal = true ∧
      (sequence.take s.cursor).map callOf ++ (runTicks s nows).2
        = sequence.map callOf := by
  intro nows
  induction nows with
  | nil =>
    intro s last _ _ hl
    simp at hl
  | cons now rest ih =>
    intro s last hp hmono hl hobs hfin
    obtain ⟨hp1, hcalls, hnow, hdone⟩ := tick_spec t0 now sequence s hp
    cases rest with
    | nil =>
      have hlast : now = last := by simpa using hl
      subst hlast
      obtain ⟨hterm, hcur⟩ := hdone hobs hfin
      refine ⟨hterm, ?_⟩
      show (sequence.take s.cursor).map callOf ++ ((tick s now).2 ++ [])
        = sequence.map callOf
      rw [List.append_nil, ← hcalls, hcur, List.take_length]
    | cons n2 r2 =>
      rw [List.getLast?_cons_cons] at hl
      have hmem : last ∈ n2 :: r2 := List.mem_of_getLast?_eq_some hl
      rw [List.pairwise_cons] at hmono
      have hle : now ≤ last := hmono.1 last hmem
      have hobs1 : (tick s now).1.last_now ≤ last := by
        rcases hnow with h | h <;> omega
      obtain ⟨hterm, hrest⟩ := ih (tick s now).1 last hp1 hmono.2 hl hobs1 hfin
      refine ⟨hterm, ?_⟩
      show (sequence.take s.cursor).map callOf
          ++ ((tick s now).2 ++ (runTicks (tick s now).1 (n2 :: r2)).2)
        = sequence.map callOf
      rw [← List.append_assoc, ← hcalls, hrest]

/-- A state built by `initialize` is a playback state with the cursor on
the first event and the baseline as the last observed time. -/
theorem initSequencer_spec (declared : List Nat) (sequence : List LedEvent)
    (t0 : Nat) (s : Sequencer) (h : initSequencer declared sequence t0 = some s) :
    s.Playing t0 sequence ∧ s.cursor = 0 ∧ s.last_now = t0 ∧
    (∀ e ∈ sequence, e.pin ∈ declared) := by
  unfold initSequencer at h
  split at h
  · rename_i hall
    have hdecl : ∀ e ∈ sequence, e.pin ∈ declared := by
      simpa using hall
    cases sequence with
    | nil =>
      simp only [Option.some.injEq] at h
      subst h
      exact ⟨⟨rfl, by simp, by simp, by simp⟩, rfl, rfl, hdecl⟩
    | cons e rest =>
      simp only [Option.some.injEq] at h
      subst h
      refine ⟨⟨rfl, by simp, by simp, ?_⟩, rfl, rfl, hdecl⟩
      intro e1 r1 he
      simp only [List.drop_zero, List.cons.injEq] at he
      obtain ⟨he1, _⟩ := he
      subst he1
      simp [totalDelay]
  · cases h

theorem dueTimes_ge : ∀ (sequence : List LedEvent) (t x : Nat),
    x ∈ dueTimes t sequence → t ≤ x := by
  intro sequence
  induction sequence with
  | nil => intro t x h; simp [dueTimes] at h
  | cons e rest ih =>
    intro t x h
    simp only [dueTimes, List.mem_cons] at h
    rcases h with h | h
    · omega
    · have := ih _ _ h
      omega

theorem dueTimes_pairwise : ∀ (sequence : List LedEvent) (t : Nat),
    (dueTimes t sequence).Pairwise (fun a b => a ≤ b) := by
  intro sequence
  induction sequence with
  | nil => intro t; simp [dueTimes]
  | cons e rest ih =>
    intro t
    simp only [dueTimes, List.pairwise_cons]
    exact ⟨fun x hx => dueTimes_ge rest _ x hx, ih _⟩

theorem dueTimes_getLast : ∀ (sequence : List LedEvent) (t : Nat),
    sequence ≠ [] → (dueTimes t sequence).getLast? = some (finalDue t sequence) := by
  intro sequence
  induction sequence with
  | nil => intro t h; exact absurd rfl h
  | cons e rest ih =>
    intro t _
    cases rest with
    | nil => simp [dueTimes, finalDue, totalDelay]
    | cons e2 r2 =>
      have := ih (t + e.dt_ms) (by simp)
      simp only [dueTimes, List.getLast?_cons_cons] at this ⊢
      rw [this]
      simp [finalDue, totalDelay]
      omega

/-- C8: catch-up equivalence of playback.  For every sequence that
`initialize` accepts and every non-decreasing series `nows` of times whose
last value is at or past the final due time, the calls made across the
repeated `tick` calls are exactly the events of the sequence, each once and
in table order, and the playback is finished; a single `tick` at a time
`far` at or past the final due time makes the same calls as one `tick` per
event at its exact due time. -/
theorem catch_up_equivalence (declared : List Nat) (sequence : List LedEvent)
    (t0 : Nat) (s : Sequencer) (nows : List Nat) (last far : Nat)
    (hinit : initSequencer declared sequence t0 = some s)
    (hmono : nows.Pairwise (fun a b => a ≤ b))
    (hlast : nows.getLast? = some last)
    (hdue : finalDue t0 sequence ≤ last)
    (hfar : finalDue t0 sequence ≤ far) :
    (runTicks s nows).2 = sequence.map callOf ∧
    is_finished (runTicks s nows).1 = true ∧
    (tick s far).2 = sequence.map callOf ∧
    (runTicks s (dueTimes t0 sequence)).2 = sequence.map callOf ∧
    (tick s far).2 = (runTicks s (dueTimes t0 sequence)).2 := by
  obtain ⟨hplay, hcur, hobs, _⟩ := initSequencer_spec declared sequence t0 s hinit
  have hbase : t0 ≤ finalDue t0 sequence := by unfold finalDue; omega
  -- any chunking
  have hchunk := runTicks_spec t0 sequence nows s last hplay hmono hlast
    (by omega) hdue
  rw [hcur] at hchunk
  -- one tick in the far future
  have hone := runTicks_spec t0 sequence [far] s far hplay (by simp) rfl
    (by omega) hfar
  rw [hcur] at hone
  have hfarcalls : (tick s far).2 = sequence.map callOf := by
    have h2 := hone.2
    simp only [runTicks, List.take_zero, List.map_nil, List.nil_append,
      List.append_nil] at h2
    exact h2
  -- one tick per event at its exact due time
  have hexact : (runTicks s (dueTimes t0 sequence)).2 = sequence.map callOf := by
    cases hseq : sequence with
    | nil => rfl
    | cons e rest =>
      have hne : sequence ≠ [] := by rw [hseq]; simp
      have h := runTicks_spec t0 sequence (dueTimes t0 sequence) s
        (finalDue t0 sequence) hplay (dueTimes_pairwise sequence t0)
        (dueTimes_getLast sequence t0 hne) (by omega) (Nat.le_refl _)
      rw [hcur] at h
      rw [← hseq]
      simpa using h.2
  refine ⟨by simpa using hchunk.2, hchunk.1, hfarcalls, hexact, ?_⟩
  rw [hfarcalls, hexact]

theorem catch_up_equivalence_witness :
    initSequencer Hot_Cross_Buns.pinMapping Hot_Cross_Buns.SONG 1000
      = some ⟨Hot_Cross_Buns.SONG, 0, 1035, false, 1000⟩ ∧
    finalDue 1000 Hot_Cross_Buns.SONG ≤ 9171 ∧
    (runTicks ⟨Hot_Cross_Buns.SONG, 0, 1035, false, 1000⟩ [1000, 1040, 1040, 5000, 9171]).2
      = Hot_Cross_Buns.SONG.map callOf ∧
    is_finished
      (runTicks ⟨Hot_Cross_Buns.SONG, 0, 1035, false, 1000⟩
        [1000, 1040, 1040, 5000, 9171]).1 = true ∧
    (tick ⟨Hot_Cross_Buns.SONG, 0, 1035, false, 1000⟩ 4000000).2
      = Hot_Cross_Buns.SONG.map callOf ∧
    (runTicks ⟨Hot_Cross_Buns.SONG, 0, 1035, false, 1000⟩
      (dueTimes 1000 Hot_Cross_Buns.SONG)).2 = Hot_Cross_Buns.SONG.map callOf ∧
    (tick ⟨Hot_Cross_Buns.SONG, 0, 1035, false, 1000⟩ 4000000).2
      = (runTicks ⟨Hot_Cross_Buns.SONG, 0, 1035, false, 1000⟩
          (dueTimes 1000 Hot_Cross_Buns.SONG)).2 :=
  ⟨by decide, by decide,
    catch_up_equivalence Hot_Cross_Buns.pinMapping Hot_Cross_Buns.SONG 1000
      ⟨Hot_Cross_Buns.SONG, 0, 1035, false, 1000⟩ [1000, 1040, 1040, 5000, 9171]
      9171 4000000 (by decide) (by decide) (by decide) (by decide) (by decide)⟩

/-- A table whose pins are all declared and that leaves every declared pin
off leaves every channel off. -/
theorem ends_all_off_of_declared (song : List LedEvent) (declared : List Nat)
    (hpins : ∀ e ∈ song, e.pin ∈ declared)
    (hoff : ∀ p ∈ declared, replay allOff song p = false) :
    ∀ p, replay allOff song p = false := by
  intro p
  by_cases hp : p ∈ declared
  · exact hoff p hp
  · rw [replay_untouched p song allOff]
    · rfl
    · intro e he heq
      exact hp (heq ▸ hpins e he)

/-- C9: every table leaves every channel off when it ends: in each of the
three `SONG` tables the last event for every channel that occurs is an off
event, and the replay of the whole table from the all-off state ends in the
all-off state. -/
theorem song_ends_all_off :
    ((∀ e ∈ Hot_Cross_Buns.SONG,
        ∃ l, lastEventFor Hot_Cross_Buns.SONG e.pin = some l ∧ l.on_ = 0) ∧
      ∀ p, replay allOff Hot_Cross_Buns.SONG p = false) ∧
    ((∀ e ∈ Mary_Had_a_Little_Lamb_v1.SONG,
        ∃ l, lastEventFor Mary_Had_a_Little_Lamb_v1.SONG e.pin = some l ∧ l.on_ = 0) ∧
      ∀ p, replay allOff Mary_Had_a_Little_Lamb_v1.SONG p = false) ∧
    ((∀ e ∈ Hot_Cross_Buns.Mary_Had_a_Little_Lamb.SONG,
        ∃ l, lastEventFor Hot_Cross_Buns.Mary_Had_a_Little_Lamb.SONG e.pin = some l ∧
          l.on_ = 0) ∧
      ∀ p, replay allOff Hot_Cross_Buns.Mary_Had_a_Little_Lamb.SONG p = false) := by
  refine ⟨⟨by decide, ?_⟩, ⟨by decide, ?_⟩, ⟨by decide, ?_⟩⟩
  · exact ends_all_off_of_declared _ _ hot_cross_buns_pins (by decide)
  · exact ends_all_off_of_declared _ _ mary_v1_pins (by decide)
  · exact ends_all_off_of_declared _ _ mary_16_pins (by decide)

theorem song_ends_all_off_witness :
    (ev32 35 4 1 ∈ Hot_Cross_Buns.SONG ∧
      ∃ l, lastEventFor Hot_Cross_Buns.SONG (ev32 35 4 1).pin = some l ∧ l.on_ = 0) ∧
    (ev32 35 5 1 ∈ Mary_Had_a_Little_Lamb_v1.SONG ∧
      ∃ l, lastEventFor Mary_Had_a_Little_Lamb_v1.SONG (ev32 35 5 1).pin = some l ∧
        l.on_ = 0) ∧
    (ev16 0 5 1 ∈ Hot_Cross_Buns.Mary_Had_a_Little_Lamb.SONG ∧
      ∃ l, lastEventFor Hot_Cross_Buns.Mary_Had_a_Little_Lamb.SONG (ev16 0 5 1).pin
        = some l ∧ l.on_ = 0) :=
  ⟨⟨by decide, song_ends_all_off.1.1 (ev32 35 4 1) (by decide)⟩,
   ⟨by decide, song_ends_all_off.2.1.1 (ev32 35 5 1) (by decide)⟩,
   ⟨by decide, song_ends_all_off.2.2.1 (ev16 0 5 1) (by decide)⟩⟩

/-- C10: the two Mary Had a Little Lamb tables encode the same song: they
have the same length and the same `(pin, on)` pairs index by index; every
off event has the same time in both tables, every on event of the 32-bit
table occurs at the same time as in the 16-bit table or exactly 35 ms later,
and both tables last 7917 ms. -/
theorem mary_tables_same_song :
    Mary_Had_a_Little_Lamb_v1.SONG.length
      = Hot_Cross_Buns.Mary_Had_a_Little_Lamb.SONG.length ∧
    Mary_Had_a_Little_Lamb_v1.SONG.map pinState
      = Hot_Cross_Buns.Mary_Had_a_Little_Lamb.SONG.map pinState ∧
    (∀ i < Mary_Had_a_Little_Lamb_v1.SONG.length,
      ((Mary_Had_a_Little_Lamb_v1.SONG.map (fun e => e.on_))[i]? = some 0 →
        timeOf Mary_Had_a_Little_Lamb_v1.SONG i
          = timeOf Hot_Cross_Buns.Mary_Had_a_Little_Lamb.SONG i) ∧
      ((Mary_Had_a_Little_Lamb_v1.SONG.map (fun e => e.on_))[i]? = some 1 →
        timeOf Mary_Had_a_Little_Lamb_v1.SONG i
          = timeOf Hot_Cross_Buns.Mary_Had_a_Little_Lamb.SONG i ∨
        timeOf Mary_Had_a_Little_Lamb_v1.SONG i
          = timeOf Hot_Cross_Buns.Mary_Had_a_Little_Lamb.SONG i + 35)) ∧
    totalDelay Hot_Cross_Buns.Mary_Had_a_Little_Lamb.SONG = 7917 ∧
    totalDelay Mary_Had_a_Little_Lamb_v1.SONG = 7917 := by
  decide

theorem mary_tables_same_song_witness :
    ((Mary_Had_a_Little_Lamb_v1.SONG.map (fun e => e.on_))[1]? = some 0 ∧
      timeOf Mary_Had_a_Little_Lamb_v1.SONG 1
        = timeOf Hot_Cross_Buns.Mary_Had_a_Little_Lamb.SONG 1) ∧
    ((Mary_Had_a_Little_Lamb_v1.SONG.map (fun e => e.on_))[0]? = some 1 ∧
      (timeOf Mary_Had_a_Little_Lamb_v1.SONG 0
          = timeOf Hot_Cross_Buns.Mary_Had_a_Little_Lamb.SONG 0 ∨
        timeOf Mary_Had_a_Little_Lamb_v1.SONG 0
          = timeOf Hot_Cross_Buns.Mary_Had_a_Little_Lamb.SONG 0 + 35)) :=
  ⟨⟨by decide, (mary_tables_same_song.2.2.1 1 (by decide)).1 (by decide)⟩,
   ⟨by decide, (mary_tables_same_song.2.2.1 0 (by decide)).2 (by decide)⟩⟩

/-! ## Delay widths -/

/-- Every due time is at most the baseline plus the sum of all delays. -/
theorem dueTimes_le_final : ∀ (sequence : List LedEvent) (t x : Nat),
    x ∈ dueTimes t sequence → x ≤ t + totalDelay sequence := by
  intro sequence
  induction sequence with
  | nil => intro t x h; simp [dueTimes] at h
  | cons e rest ih =>
    intro t x h
    rw [totalDelay_cons]
    simp only [dueTimes, List.mem_cons] at h
    rcases h with h | h
    · omega
    · have := ih _ _ h
      omega

/-- Accumulating the due times in `w` bits gives the exact due times when
the baseline plus the sum of all delays is below `2 ^ w`. -/
theorem dueTimesMod_eq : ∀ (w : Nat) (sequence : List LedEvent) (t : Nat),
    t + totalDelay sequence < 2 ^ w →
    dueTimesMod w t sequence = dueTimes t sequence := by
  intro w sequence
  induction sequence with
  | nil => intro t _; rfl
  | cons e rest ih =>
    intro t h
    rw [totalDelay_cons] at h
    have hmod : (t + e.dt_ms) % 2 ^ w = t + e.dt_ms :=
      Nat.mod_eq_of_lt (by omega)
    simp only [dueTimesMod, dueTimes, hmod]
    rw [ih (t + e.dt_ms) (by omega)]

/-- C11: the difference in delay width between the tables loses nothing.
In each of the three `SONG` tables every `dt_ms` is at most 545, hence below
`2 ^ 16`, and 545 occurs; every record is the same whether it is stored with
a `uint16_t` or with a `uint32_t` delay; the sum of all `dt_ms` of the table
is below `2 ^ 16`; and for a width `w` of 16 or 32 bits and a baseline `b`
with `b` plus that sum below `2 ^ w`, the due times accumulated in `w` bits
are the exact due times, all below `2 ^ w`. -/
theorem delay_widths_lose_nothing (song : List LedEvent)
    (hsong : song ∈ [Hot_Cross_Buns.SONG, Mary_Had_a_Little_Lamb_v1.SONG,
      Hot_Cross_Buns.Mary_Had_a_Little_Lamb.SONG]) :
    (∀ e ∈ song, e.dt_ms ≤ 545 ∧ e.dt_ms < 2 ^ 16 ∧
      e.dt_ms % 2 ^ 16 = e.dt_ms ∧ e.dt_ms % 2 ^ 32 = e.dt_ms ∧
      ev16 e.dt_ms e.pin e.on_ = e ∧ ev32 e.dt_ms e.pin e.on_ = e) ∧
    (∃ e ∈ Hot_Cross_Buns.SONG, e.dt_ms = 545) ∧
    totalDelay song < 2 ^ 16 ∧
    (∀ w b, (w = 16 ∨ w = 32) → b + totalDelay song < 2 ^ w →
      dueTimesMod w b song = dueTimes b song ∧
      ∀ t ∈ dueTimes b song, t < 2 ^ w) := by
  have hacc : ∀ w b, (w = 16 ∨ w = 32) → b + totalDelay song < 2 ^ w →
      dueTimesMod w b song = dueTimes b song ∧
      ∀ t ∈ dueTimes b song, t < 2 ^ w := by
    intro w b _ hb
    refine ⟨dueTimesMod_eq w song b hb, ?_⟩
    intro t ht
    exact Nat.lt_of_le_of_lt (dueTimes_le_final song b t ht) hb
  have h545 : ∃ e ∈ Hot_Cross_Buns.SONG, e.dt_ms = 545 :=
    ⟨ev32 545 4 1, by decide, by decide⟩
  simp only [List.mem_cons, List.mem_singleton, List.not_mem_nil, or_false] at hsong
  rcases hsong with h | h | h
  · subst h
    exact ⟨by decide, h545, by decide, hacc⟩
  · subst h
    exact ⟨by decide, h545, by decide, hacc⟩
  · subst h
    exact ⟨by decide, h545, by decide, hacc⟩

theorem delay_widths_lose_nothing_witness :
    Hot_Cross_Buns.Mary_Had_a_Little_Lamb.SONG
      ∈ [Hot_Cross_Buns.SONG, Mary_Had_a_Little_Lamb_v1.SONG,
          Hot_Cross_Buns.Mary_Had_a_Little_Lamb.SONG] ∧
    (ev16 273 4 0 ∈ Hot_Cross_Buns.Mary_Had_a_Little_Lamb.SONG ∧
      (ev16 273 4 0).dt_ms < 2 ^ 16) ∧
    totalDelay Hot_Cross_Buns.Mary_Had_a_Little_Lamb.SONG < 2 ^ 16 ∧
    (57000 + totalDelay Hot_Cross_Buns.Mary_Had_a_Little_Lamb.SONG < 2 ^ 16 ∧
      dueTimesMod 16 57000 Hot_Cross_Buns.Mary_Had_a_Little_Lamb.SONG
        = dueTimes 57000 Hot_Cross_Buns.Mary_Had_a_Little_Lamb.SONG) :=
  ⟨by decide,
   ⟨by decide,
    ((delay_widths_lose_nothing Hot_Cross_Buns.Mary_Had_a_Little_Lamb.SONG
      (by decide)).1 (ev16 273 4 0) (by decide)).2.1⟩,
   (delay_widths_lose_nothing Hot_Cross_Buns.Mary_Had_a_Little_Lamb.SONG
      (by decide)).2.2.1,
   ⟨by decide,
    ((delay_widths_lose_nothing Hot_Cross_Buns.Mary_Had_a_Little_Lamb.SONG
      (by decide)).2.2.2 16 57000 (Or.inl rfl) (by decide)).1⟩⟩
